import Mathlib

/-!
Shallow embedding of the `pcre` wrapper crate (src/pcre/mod.rs) for
verification of its ownership, matching and introspection contracts.

Modelling conventions:
* The native engine (`detail::pcre_compile`, `detail::pcre_exec`,
  `detail::pcre_study`, `detail::pcre_refcount`, ...) is an external
  collaborator.  Matching calls are modelled by a deterministic oracle
  `ExecCall → Int × List Int` giving the engine's result code and the
  contents of the offset vector after the call; compilation and studying
  are modelled by oracle parameters in the same way.
* `c_int` values (result codes, offsets, offset-vector entries, which may
  be the sentinel `-1`) are modelled as `Int`; `usize` values as `Nat`.
  The cast `as usize` of a possibly negative `c_int` is `intToUsize`
  (two's-complement reinterpretation modulo `2^64`).
* `capture_count_` is modelled as `Nat`: `PCRE_INFO_CAPTURECOUNT` is a
  nonnegative count, the `c_int` field never holds a negative value.
* Strings crossing the FFI boundary are byte lists (`List Nat`).
* A Rust `panic!` / failed index or slice is modelled as `none` of an
  `Option` result; raw pointers that only matter as null/non-null are
  modelled as `Bool` or `Option`.
-/

/-- Two's-complement reinterpretation of a `c_int`-valued quantity as a
Rust `usize` (64-bit), as performed by the `as usize` casts in the code. -/
def intToUsize (i : Int) : Nat :=
  (i % (2 ^ 64 : Int)).toNat

/-- Bit value of `ExtraOption::ExtraMatchLimit` (mod.rs line 83). -/
def ExtraMatchLimit : Nat := 0x0002

/-- Bit value of `ExtraOption::ExtraMatchLimitRecursion` (mod.rs line 86). -/
def ExtraMatchLimitRecursion : Nat := 0x0010

/-- Bit value of `ExtraOption::ExtraMark` (mod.rs line 87). -/
def ExtraMark : Nat := 0x0020

/-- The `PcreExtra` struct (mod.rs lines 124-135).  Pointer-valued fields
that the embedded operations only test for null are modelled as `Bool`
(present / null). -/
structure PcreExtra where
  flags : Nat
  study_data : Bool
  match_limit_ : Nat
  callout_data : Bool
  tables : Bool
  match_limit_recursion_ : Nat
  mark : Bool
  executable_jit : Bool
deriving DecidableEq

/-- `PcreExtra::match_limit` (mod.rs lines 667-673). -/
def PcreExtra.match_limit (e : PcreExtra) : Option Nat :=
  if e.flags &&& ExtraMatchLimit = 0 then none
  else some e.match_limit_

/-- `PcreExtra::match_limit_recursion` (mod.rs lines 678-684). -/
def PcreExtra.match_limit_recursion (e : PcreExtra) : Option Nat :=
  if e.flags &&& ExtraMatchLimitRecursion = 0 then none
  else some e.match_limit_recursion_

/-- `PcreExtra::set_match_limit` (mod.rs lines 693-696). -/
def PcreExtra.set_match_limit (e : PcreExtra) (limit : Nat) : PcreExtra :=
  { e with flags := e.flags ||| ExtraMatchLimit, match_limit_ := limit }

/-- `PcreExtra::set_match_limit_recursion` (mod.rs lines 699-702).
Note the faithful translation of line 701: the source assigns the new
limit to the `match_limit_` field, not to `match_limit_recursion_`. -/
def PcreExtra.set_match_limit_recursion (e : PcreExtra) (limit : Nat) : PcreExtra :=
  { e with flags := e.flags ||| ExtraMatchLimitRecursion, match_limit_ := limit }

/-- The `Match` struct (mod.rs lines 138-146): a borrowed subject, the
copied prefix of the offset vector, and the engine's capture count. -/
structure Match where
  subject : List Nat
  partial_ovector : List Int
  string_count_ : Int
deriving DecidableEq

/-- `Match::group_start` (mod.rs lines 713-715):
`self.partial_ovector[(n * 2) as usize] as usize`.  The Rust indexing
panics when the index is out of bounds; this is the `none` case. -/
def Match.group_start (m : Match) (n : Nat) : Option Nat :=
  (m.partial_ovector.get? (n * 2)).map intToUsize

/-- `Match::group_end` (mod.rs lines 718-720). -/
def Match.group_end (m : Match) (n : Nat) : Option Nat :=
  (m.partial_ovector.get? (n * 2 + 1)).map intToUsize

/-- `Match::group_len` (mod.rs lines 723-726): slices the offset vector
from `n * 2` and reads entries `[0]` and `[1]` of the slice; panics
(`none`) when either index falls outside the vector. -/
def Match.group_len (m : Match) (n : Nat) : Option Nat :=
  match m.partial_ovector.get? (n * 2), m.partial_ovector.get? (n * 2 + 1) with
  | some s, some e => some (intToUsize (e - s))
  | _, _ => none

/-- `Match::group` (mod.rs lines 730-735): reads the two offsets as for
`group_len` and slices the subject with `slice(start, end)`, which panics
(`none`) when `start > end` or `end` exceeds the subject length. -/
def Match.group (m : Match) (n : Nat) : Option (List Nat) :=
  match m.partial_ovector.get? (n * 2), m.partial_ovector.get? (n * 2 + 1) with
  | some s, some e =>
      let start := intToUsize s
      let stop := intToUsize e
      if start ≤ stop ∧ stop ≤ m.subject.length then
        some ((m.subject.drop start).take (stop - start))
      else none
  | _, _ => none

/-- `Match::string_count` (mod.rs lines 738-740). -/
def Match.string_count (m : Match) : Nat :=
  intToUsize m.string_count_

/-- The `Pcre` struct (mod.rs lines 111-122).  The native handle is an
opaque id; the owned `extra` pointer is `Option PcreExtra`; the mark
scratch pointer is only ever tested for null, so it is a `Bool`. -/
structure Pcre where
  code : Nat
  extra : Option PcreExtra
  capture_count_ : Nat
  mark_ : Bool
deriving DecidableEq

/-- Outcome of `Pcre::compile_with_options` (mod.rs lines 352-384).
`panicked` is the task failure raised by `with_c_str` when the pattern
holds an interior null byte; `err` is the returned `CompilationError`
(optional message plus error offset); `ok` carries the wrapper. -/
inductive CompileResult where
  | panicked : CompileResult
  | err (opt_err : Option String) (erroffset : Int) : CompileResult
  | ok (p : Pcre) : CompileResult
deriving DecidableEq

/-- Oracle for `detail::pcre_compile`: given the (full, untruncated)
pattern bytes and the option bits, either a `(message, offset)` failure
or a fresh native handle id. -/
def CompileEngine : Type :=
  List Nat → Nat → Sum (Option String × Int) Nat

/-- `Pcre::compile_with_options` (mod.rs lines 352-384).
`pattern.with_c_str` fails the task when the pattern contains an interior
null byte, before the engine is consulted; otherwise the engine compiles
the full pattern, and on success the wrapper takes a reference and stores
the engine-reported `PCRE_INFO_CAPTURECOUNT` (`captureInfo`). -/
def Pcre.compile_with_options (engComp : CompileEngine) (captureInfo : Nat)
    (pattern : List Nat) (options : Nat) : CompileResult :=
  if 0 ∈ pattern then CompileResult.panicked
  else
    match engComp pattern options with
    | Sum.inl (opt_err, erroffset) => CompileResult.err opt_err erroffset
    | Sum.inr code =>
        CompileResult.ok
          { code := code, extra := none, capture_count_ := captureInfo, mark_ := false }

/-- `Pcre::compile` (mod.rs lines 341-344): compile with the empty option
set. -/
def Pcre.compile (engComp : CompileEngine) (captureInfo : Nat)
    (pattern : List Nat) : CompileResult :=
  Pcre.compile_with_options engComp captureInfo pattern 0

/-- `Pcre::capture_count` (mod.rs lines 394-396). -/
def Pcre.capture_count (p : Pcre) : Nat :=
  p.capture_count_

/-- One call to `detail::pcre_exec` (mod.rs line 495 and line 783):
the native handle, the extra block pointer, the subject bytes passed as a
C string, the `subject.len() as c_int` argument, the start offset, the
exec option bits, and the contents of the offset vector handed to the
engine (its length is the `ovecsize` argument). -/
structure ExecCall where
  code : Nat
  extra : Option PcreExtra
  subject : List Nat
  length : Int
  startoffset : Int
  options : Nat
  ovecInit : List Int
deriving DecidableEq

/-- Deterministic oracle for `detail::pcre_exec`: the result code and the
offset-vector contents after the call (the engine writes the buffer in
place, so the returned list has the length of `ovecInit`). -/
def ExecEngine : Type :=
  ExecCall → Int × List Int

/-- The `pcre_exec` call constructed by `Pcre::exec_from_with_options`
(mod.rs lines 489-495): a freshly allocated, zero-filled offset vector of
`(capture_count_ + 1) * 3` entries. -/
def Pcre.execCall (p : Pcre) (subject : List Nat) (startoffset : Int)
    (options : Nat) : ExecCall :=
  { code := p.code, extra := p.extra, subject := subject,
    length := (subject.length : Int), startoffset := startoffset,
    options := options,
    ovecInit := List.replicate ((p.capture_count_ + 1) * 3) 0 }

/-- `Pcre::exec_from_with_options` (mod.rs lines 489-507).  Returns the
optional `Match` together with the list of engine invocations performed
(always exactly one).  On `rc >= 0` the match copies
`ovector.slice_to((capture_count_ + 1) * 2)` and records `rc`. -/
def Pcre.exec_from_with_options (eng : ExecEngine) (p : Pcre)
    (subject : List Nat) (startoffset : Nat) (options : Nat) :
    Option Match × List ExecCall :=
  let call := p.execCall subject (startoffset : Int) options
  let r := eng call
  if 0 ≤ r.1 then
    (some { subject := subject,
            partial_ovector := r.2.take ((p.capture_count_ + 1) * 2),
            string_count_ := r.1 },
     [call])
  else
    (none, [call])

/-- `Pcre::exec_from` (mod.rs lines 464-467): empty exec option set. -/
def Pcre.exec_from (eng : ExecEngine) (p : Pcre) (subject : List Nat)
    (startoffset : Nat) : Option Match × List ExecCall :=
  Pcre.exec_from_with_options eng p subject startoffset 0

/-- `Pcre::exec` (mod.rs lines 443-445): start offset 0. -/
def Pcre.exec (eng : ExecEngine) (p : Pcre) (subject : List Nat) :
    Option Match × List ExecCall :=
  Pcre.exec_from eng p subject 0

/-- The `MatchIterator` struct (mod.rs lines 149-169).  `subject_cstring`
is the iterator's private C-string copy of the subject (same bytes);
`ovector` is the reusable offset-vector buffer. -/
structure MatchIterator where
  code : Nat
  extra : Option PcreExtra
  capture_count : Nat
  subject : List Nat
  subject_cstring : List Nat
  offset : Int
  options : Nat
  ovector : List Int
deriving DecidableEq

/-- `Pcre::matches_with_options` (mod.rs lines 549-563).  The source also
increments the shared refcount while building the iterator; that world
effect is modelled separately by `incRefOnShare`. -/
def Pcre.matches_with_options (p : Pcre) (subject : List Nat)
    (options : Nat) : MatchIterator :=
  { code := p.code, extra := p.extra, capture_count := p.capture_count_,
    subject := subject, subject_cstring := subject, offset := 0,
    options := options,
    ovector := List.replicate ((p.capture_count_ + 1) * 3) 0 }

/-- `Pcre::matches` (mod.rs lines 536-539): empty exec option set. -/
def Pcre.matches (p : Pcre) (subject : List Nat) : MatchIterator :=
  Pcre.matches_with_options p subject 0

/-- `MatchIterator::next` (mod.rs lines 777-798).  Invokes the engine at
the current scan offset on the reused buffer; when `rc >= 0` the new scan
offset is `self.ovector[1]` (the end offset of the match just found — with
no further adjustment), and a `Match` copying the first
`(capture_count + 1) * 2` entries is emitted.  The buffer holds whatever
the engine wrote in either branch. -/
def MatchIterator.next (eng : ExecEngine) (it : MatchIterator) :
    Option Match × MatchIterator :=
  let call : ExecCall :=
    { code := it.code, extra := it.extra, subject := it.subject_cstring,
      length := (it.subject.length : Int), startoffset := it.offset,
      options := it.options, ovecInit := it.ovector }
  let r := eng call
  if 0 ≤ r.1 then
    (some { subject := it.subject,
            partial_ovector := r.2.take ((it.capture_count + 1) * 2),
            string_count_ := r.1 },
     { it with offset := r.2.getD 1 0, ovector := r.2 })
  else
    (none, { it with ovector := r.2 })

/-- `MatchIterator::clone` (mod.rs lines 743-759): an independent cursor
at the same offset with its own C-string copy of the subject.  The
refcount increment is modelled by `incRefOnShare`. -/
def MatchIterator.clone (it : MatchIterator) : MatchIterator :=
  { code := it.code, extra := it.extra, capture_count := it.capture_count,
    subject := it.subject, subject_cstring := it.subject,
    offset := it.offset, options := it.options, ovector := it.ovector }

/-- Release events on the shared native resource, in the order the
destructors emit them: `pcre_free_study` on the extra block, then
`pcre_free` on the compiled-pattern handle. -/
inductive Ev where
  | freeStudy : Ev
  | freeCode : Ev
deriving DecidableEq

/-- The state of one shared native compiled-pattern object: the manual
reference count maintained through `detail::pcre_refcount`, and the trace
of release events performed so far. -/
structure NativeWorld where
  refcount : Int
  trace : List Ev
deriving DecidableEq

/-- `detail::pcre_refcount(code, delta)`: adjusts the count and returns
the new value (delta 0 reads without mutating). -/
def pcre_refcount (w : NativeWorld) (delta : Int) : Int × NativeWorld :=
  let rc := w.refcount + delta
  (rc, { w with refcount := rc })

/-- `Pcre::matches_with_options` / `MatchIterator::clone` world effect
(mod.rs lines 553 and 748): `pcre_refcount(code, 1)` takes one more
reference to the shared handle. -/
def incRefOnShare (w : NativeWorld) : NativeWorld :=
  (pcre_refcount w 1).2

/-- The shared destructor body of `impl Drop for Pcre` (mod.rs lines
650-661) and `impl Drop for MatchIterator` (mod.rs lines 761-772): the
refcount is decremented, and only when the new count is 0 are
`pcre_free_study` and then `pcre_free` called.  (Each destructor also
nulls its own `extra`/`code` pointers; that per-handle effect does not
touch the shared state.) -/
def dropOwner (w : NativeWorld) : NativeWorld :=
  let r := pcre_refcount w (-1)
  if r.1 = 0 then
    { r.2 with trace := r.2.trace ++ [Ev.freeStudy, Ev.freeCode] }
  else
    r.2

/-- `k` successive owner drops (any interleaving of `Pcre` and
`MatchIterator` destructors — both run the same shared body). -/
def dropN : Nat → NativeWorld → NativeWorld
  | 0, w => w
  | k + 1, w => dropN k (dropOwner w)

/-- Oracle for `detail::pcre_study`: option bits to the produced extra
block, or null. -/
def StudyEngine : Type := Nat → Option PcreExtra

/-- `Pcre::study_with_options` (mod.rs lines 630-647).  `refcount` is the
value read by `pcre_refcount(code, 0)`.  When it is not exactly 1 the
call refuses (`false`) and changes nothing; otherwise the current study
data is freed (`pcre_free_study` is a no-op on a null extra), the engine
is asked to study, and the new extra pointer is installed.  Returns the
success flag, the updated `Pcre`, and the release events performed. -/
def Pcre.study_with_options (refcount : Int) (engStudy : StudyEngine)
    (options : Nat) (p : Pcre) : Bool × Pcre × List Ev :=
  if refcount ≠ 1 then
    (false, p, [])
  else
    let freeEvs : List Ev :=
      match p.extra with
      | some _ => [Ev.freeStudy]
      | none => []
    let extra := engStudy options
    (extra.isSome, { p with extra := extra }, freeEvs)

/-- `Pcre::study` (mod.rs lines 615-618): empty study option set. -/
def Pcre.study (refcount : Int) (engStudy : StudyEngine) (p : Pcre) :
    Bool × Pcre × List Ev :=
  Pcre.study_with_options refcount engStudy 0 p

/-- One entry of the engine's name table (mod.rs lines 590-604): two
bytes encoding the group number big-endian, then the NUL-terminated group
name. -/
structure NameEntry where
  b0 : Nat
  b1 : Nat
  name : String
deriving DecidableEq

/-- The group number decoded from a name-table entry (mod.rs line 592):
`(read(tabptr) << 8) | read(tabptr + 1)`. -/
def NameEntry.number (e : NameEntry) : Nat :=
  (e.b0 <<< 8) ||| e.b1

/-- `BTreeMap` lookup over the association-list model of the name table:
the value stored under the first entry whose key equals `name`. -/
def tableFind (m : List (String × List Nat)) (name : String) :
    Option (List Nat) :=
  match m with
  | [] => none
  | kv :: rest => if kv.1 = name then some kv.2 else tableFind rest name

/-- The loop body of `Pcre::name_table` (mod.rs lines 597-601): if the
name is absent, insert a singleton vector; otherwise push the number onto
the existing vector for that name. -/
def tableInsert (m : List (String × List Nat)) (nm : String) (n : Nat) :
    List (String × List Nat) :=
  if (tableFind m nm).isSome then
    m.map (fun kv => if kv.1 = nm then (kv.1, kv.2 ++ [n]) else kv)
  else
    m ++ [(nm, [n])]

/-- `Pcre::name_table` (mod.rs lines 580-608): folds the engine's name
table entries, in table order, into a name → group-numbers mapping. -/
def Pcre.name_table (entries : List NameEntry) : List (String × List Nat) :=
  entries.foldl (fun acc e => tableInsert acc e.name e.number) []

/-- The group numbers of all entries carrying `name`, in table order. -/
def numbersFor (entries : List NameEntry) (name : String) : List Nat :=
  (entries.filter (fun e => e.name = name)).map NameEntry.number

/-- Engine oracle reporting an empty match at offset 0: result code 1
with offset vector `[0, 0, _]` (match start 0, match end 0). -/
def engEmptyAt0 : ExecEngine := fun _ => (1, [0, 0, 0])

/-- Iterator over subject `"abc"` for a pattern with no capture groups,
as built by `Pcre::matches`. -/
def itAbc : MatchIterator :=
  Pcre.matches { code := 0, extra := none, capture_count_ := 0, mark_ := false }
    [97, 98, 99]

/-- C1: refuted by the code.  When the engine reports an empty match at
the current scan offset, `MatchIterator::next` sets the new offset to
`ovector[1]`, which equals the old offset: the iterator state is left
exactly as it was (a fixpoint), so every later `next()` yields the same
empty match again and iteration never terminates, contradicting the
claimed strict advance by at least one code unit. -/
theorem matchIterator_next_empty_match_stalls :
    (MatchIterator.next engEmptyAt0 itAbc).1 =
      some { subject := [97, 98, 99], partial_ovector := [0, 0],
             string_count_ := 1 } ∧
    (MatchIterator.next engEmptyAt0 itAbc).2.offset = itAbc.offset ∧
    itAbc.offset = 0 ∧
    (MatchIterator.next engEmptyAt0 itAbc).2 = itAbc := by
  decide

/-- A `PcreExtra` with the match-limit flag active, match limit 7 and
recursion-limit field 0. -/
def extraML : PcreExtra :=
  { flags := ExtraMatchLimit, study_data := false, match_limit_ := 7,
    callout_data := false, tables := false, match_limit_recursion_ := 0,
    mark := false, executable_jit := false }

/-- C10: refuted by the code.  `set_match_limit_recursion(5)` assigns the
new limit to the `match_limit_` field (mod.rs line 701), so
`match_limit_recursion()` still reports the stale value 0 instead of 5,
while `match_limit()` — which the call must not affect — changes from 7
to 5. -/
theorem set_match_limit_recursion_sets_wrong_field :
    (extraML.set_match_limit_recursion 5).match_limit_recursion = some 0 ∧
    (extraML.set_match_limit_recursion 5).match_limit_recursion ≠ some 5 ∧
    extraML.match_limit = some 7 ∧
    (extraML.set_match_limit_recursion 5).match_limit = some 5 := by
  decide

/-- C2 (amended): whenever the requested index reaches past the stored
offset table (`partial_ovector`, of length `2 * (capture_count + 1)`) —
i.e. for `n > capture_count` — every group accessor of a `Match` fails
with an out-of-bounds panic.  The failure guarantee of the original
claim does not hold already for `n > string_count()`: within the table
the numeric accessors return values derived from the unset groups'
sentinel negative offsets instead (see
`match_group_start_returns_sentinel`). -/
theorem match_group_accessors_out_of_table (m : Match) (n : Nat)
    (h : m.partial_ovector.length ≤ n * 2) :
    m.group_start n = none ∧ m.group_end n = none ∧
    m.group_len n = none ∧ m.group n = none := by
  have h0 : m.partial_ovector[n * 2]? = none :=
    List.getElem?_eq_none h
  have h1 : m.partial_ovector[n * 2 + 1]? = none :=
    List.getElem?_eq_none (le_trans h (Nat.le_succ _))
  refine ⟨?_, ?_, ?_, ?_⟩
  · simp [Match.group_start, List.get?_eq_getElem?, h0]
  · simp [Match.group_end, List.get?_eq_getElem?, h1]
  · simp [Match.group_len, List.get?_eq_getElem?, h0, h1]
  · simp [Match.group, List.get?_eq_getElem?, h0, h1]

/-- Witness for `match_group_accessors_out_of_table` at a concrete match
(one capture pair stored) and `n = 1`. -/
theorem match_group_accessors_out_of_table_witness :
    (Match.partial_ovector
        { subject := [97], partial_ovector := [0, 1], string_count_ := 1 }).length
      ≤ 1 * 2 ∧
    (Match.group_start
        { subject := [97], partial_ovector := [0, 1], string_count_ := 1 } 1 = none ∧
      Match.group_end
        { subject := [97], partial_ovector := [0, 1], string_count_ := 1 } 1 = none ∧
      Match.group_len
        { subject := [97], partial_ovector := [0, 1], string_count_ := 1 } 1 = none ∧
      Match.group
        { subject := [97], partial_ovector := [0, 1], string_count_ := 1 } 1 = none) :=
  ⟨by decide,
   match_group_accessors_out_of_table
     { subject := [97], partial_ovector := [0, 1], string_count_ := 1 } 1
     (by decide)⟩

/-- Engine oracle for a pattern with three capture groups matching with
groups 0 and 1 set and groups 2 and 3 unset (sentinel `-1` offsets):
result code 2. -/
def engSentinel : ExecEngine :=
  fun _ => (2, [0, 1, 0, 1, -1, -1, -1, -1, 0, 0, 0, 0])

/-- A compiled pattern with three capture groups. -/
def pcre3 : Pcre :=
  { code := 0, extra := none, capture_count_ := 3, mark_ := false }

/-- C2 counterexample: a `Match` produced by `exec` with
`string_count() = 2` on a pattern with three capture groups.  For
`n = 3 > string_count()`, `group_start` does not fail: it returns the
unset group's sentinel offset `-1` reinterpreted `as usize`
(`2^64 - 1`), and `group_len` returns 0 — garbage derived from sentinel
negative offsets, contradicting the claimed out-of-bounds failure. -/
theorem match_group_start_returns_sentinel :
    (Pcre.exec engSentinel pcre3 [97, 98]).1 =
      some { subject := [97, 98],
             partial_ovector := [0, 1, 0, 1, -1, -1, -1, -1],
             string_count_ := 2 } ∧
    Match.string_count
        { subject := [97, 98],
          partial_ovector := [0, 1, 0, 1, -1, -1, -1, -1],
          string_count_ := 2 } = 2 ∧
    Match.group_start
        { subject := [97, 98],
          partial_ovector := [0, 1, 0, 1, -1, -1, -1, -1],
          string_count_ := 2 } 3 = some 18446744073709551615 ∧
    Match.group_len
        { subject := [97, 98],
          partial_ovector := [0, 1, 0, 1, -1, -1, -1, -1],
          string_count_ := 2 } 3 = some 0 := by
  refine ⟨rfl, rfl, rfl, rfl⟩

/-- C3: when the shared refcount read by `pcre_refcount(code, 0)` is not
exactly 1 (for example while a derived `MatchIterator` is alive),
`study_with_options` — and hence `study` — returns `false`, leaves the
pattern (in particular its `extra` pointer) unchanged, and performs no
release: the existing extra block is neither freed nor replaced. -/
theorem study_refused_when_shared (refcount : Int) (engStudy : StudyEngine)
    (options : Nat) (p : Pcre) (h : refcount ≠ 1) :
    Pcre.study_with_options refcount engStudy options p = (false, p, []) ∧
    Pcre.study refcount engStudy p = (false, p, []) := by
  constructor <;> simp [Pcre.study, Pcre.study_with_options, h]

/-- A study oracle that always declines to produce an extra block. -/
def studyNone : StudyEngine := fun _ => none

/-- A compiled pattern with one capture group and no extra block. -/
def pcre1 : Pcre :=
  { code := 0, extra := none, capture_count_ := 1, mark_ := false }

theorem study_refused_when_shared_witness :
    (2 : Int) ≠ 1 ∧
    (Pcre.study_with_options 2 studyNone 0 pcre1 = (false, pcre1, []) ∧
      Pcre.study 2 studyNone pcre1 = (false, pcre1, [])) :=
  ⟨by decide, study_refused_when_shared 2 studyNone 0 pcre1 (by decide)⟩

/-- C7: `capture_count()` returns the count stored at compile time from
the engine's `PCRE_INFO_CAPTURECOUNT` introspection (which excludes the
implicit whole-match group 0); being a pure field read it is the same
across repeated calls, and neither a refused nor a successful
`study`/`study_with_options` changes it. -/
theorem capture_count_invariant (engComp : CompileEngine)
    (captureInfo : Nat) (pattern : List Nat) (options : Nat) (p : Pcre)
    (refcount : Int) (engStudy : StudyEngine) (sopts : Nat)
    (h : Pcre.compile_with_options engComp captureInfo pattern options
          = CompileResult.ok p) :
    Pcre.capture_count p = captureInfo ∧
    Pcre.capture_count (Pcre.study_with_options refcount engStudy sopts p).2.1
      = Pcre.capture_count p ∧
    Pcre.capture_count (Pcre.study refcount engStudy p).2.1
      = Pcre.capture_count p := by
  have hinv : ∀ (rc : Int) (es : StudyEngine) (so : Nat) (q : Pcre),
      Pcre.capture_count (Pcre.study_with_options rc es so q).2.1
        = Pcre.capture_count q := by
    intro rc es so q
    unfold Pcre.study_with_options
    split <;> rfl
  refine ⟨?_, hinv refcount engStudy sopts p, hinv refcount engStudy 0 p⟩
  by_cases hz : 0 ∈ pattern
  · simp [Pcre.compile_with_options, hz] at h
  · rcases he : engComp pattern options with e | code
    · simp [Pcre.compile_with_options, hz, he] at h
    · simp [Pcre.compile_with_options, hz, he] at h
      rw [← h]
      rfl

/-- A compile oracle that always succeeds with native handle id 0. -/
def compOk : CompileEngine := fun _ _ => Sum.inr 0

theorem capture_count_invariant_witness :
    Pcre.compile_with_options compOk 2 [97] 0
        = CompileResult.ok
            { code := 0, extra := none, capture_count_ := 2, mark_ := false } ∧
    (Pcre.capture_count
          { code := 0, extra := none, capture_count_ := 2, mark_ := false } = 2 ∧
      Pcre.capture_count
          (Pcre.study_with_options 1 studyNone 0
            { code := 0, extra := none, capture_count_ := 2, mark_ := false }).2.1
        = Pcre.capture_count
            { code := 0, extra := none, capture_count_ := 2, mark_ := false } ∧
      Pcre.capture_count
          (Pcre.study 1 studyNone
            { code := 0, extra := none, capture_count_ := 2, mark_ := false }).2.1
        = Pcre.capture_count
            { code := 0, extra := none, capture_count_ := 2, mark_ := false }) :=
  ⟨by decide,
   capture_count_invariant compOk 2 [97] 0
     { code := 0, extra := none, capture_count_ := 2, mark_ := false }
     1 studyNone 0 (by decide)⟩

/-- C9: a pattern containing an embedded null byte makes
`compile_with_options` (and `compile`) fail with the loud usage error
(`with_c_str` task failure), for every engine — so the engine is never
handed a truncated pattern — and this outcome is distinct both from a
`CompilationError` for an invalid pattern and from a successful compile
(and a no-match, `Option.none`, does not even inhabit this result type). -/
theorem compile_null_byte_fails_loudly (engComp : CompileEngine)
    (captureInfo : Nat) (pattern : List Nat) (options : Nat)
    (h : 0 ∈ pattern) :
    Pcre.compile_with_options engComp captureInfo pattern options
      = CompileResult.panicked ∧
    Pcre.compile engComp captureInfo pattern = CompileResult.panicked ∧
    (∀ msg off, CompileResult.panicked ≠ CompileResult.err msg off) ∧
    (∀ q, CompileResult.panicked ≠ CompileResult.ok q) := by
  refine ⟨by simp [Pcre.compile_with_options, h],
          by simp [Pcre.compile, Pcre.compile_with_options, h],
          fun msg off h' => CompileResult.noConfusion h',
          fun q h' => CompileResult.noConfusion h'⟩

theorem compile_null_byte_fails_loudly_witness :
    0 ∈ [97, 0, 98] ∧
    (Pcre.compile_with_options compOk 0 [97, 0, 98] 0
        = CompileResult.panicked ∧
      Pcre.compile compOk 0 [97, 0, 98] = CompileResult.panicked ∧
      (∀ msg off, CompileResult.panicked ≠ CompileResult.err msg off) ∧
      (∀ q, CompileResult.panicked ≠ CompileResult.ok q)) :=
  ⟨by decide, compile_null_byte_fails_loudly compOk 0 [97, 0, 98] 0 (by decide)⟩

/-- C5: each `exec_from_with_options` call invokes the engine exactly
once, on a freshly allocated zero-filled offset vector of exactly
`3 * (capture_count_ + 1)` entries; it returns `none` exactly when the
engine's result code is negative, and otherwise a `Match` borrowing the
subject, storing a copy of the first `2 * (capture_count_ + 1)` entries
of the offset vector, whose `string_count()` equals the result code.
(`hlen`: the engine writes the offset vector in place, so its length is
preserved.) -/
theorem exec_from_with_options_contract (eng : ExecEngine)
    (hlen : ∀ c, ((eng c).2).length = c.ovecInit.length)
    (p : Pcre) (subject : List Nat) (startoffset : Nat) (options : Nat) :
    (Pcre.exec_from_with_options eng p subject startoffset options).2
      = [p.execCall subject (startoffset : Int) options] ∧
    (p.execCall subject (startoffset : Int) options).ovecInit
      = List.replicate ((p.capture_count_ + 1) * 3) 0 ∧
    ((Pcre.exec_from_with_options eng p subject startoffset options).1 = none
      ↔ (eng (p.execCall subject (startoffset : Int) options)).1 < 0) ∧
    (∀ m,
      (Pcre.exec_from_with_options eng p subject startoffset options).1 = some m →
      m.subject = subject ∧
      m.partial_ovector
        = ((eng (p.execCall subject (startoffset : Int) options)).2).take
            ((p.capture_count_ + 1) * 2) ∧
      m.partial_ovector.length = (p.capture_count_ + 1) * 2 ∧
      m.string_count_ = (eng (p.execCall subject (startoffset : Int) options)).1) := by
  have hl := hlen (p.execCall subject (startoffset : Int) options)
  have hlen3 : ((eng (p.execCall subject (startoffset : Int) options)).2).length
      = (p.capture_count_ + 1) * 3 := by
    rw [hl]
    simp [Pcre.execCall]
  by_cases hrc : 0 ≤ (eng (p.execCall subject (startoffset : Int) options)).1
  · refine ⟨by simp [Pcre.exec_from_with_options, hrc], rfl, ?_, ?_⟩
    · simp [Pcre.exec_from_with_options, hrc]
    · intro m hm
      simp [Pcre.exec_from_with_options, hrc] at hm
      refine ⟨?_, ?_, ?_, ?_⟩
      · rw [← hm]
      · rw [← hm]
      · rw [← hm]
        simp [List.length_take, hlen3]
      · rw [← hm]
  · refine ⟨by simp [Pcre.exec_from_with_options, hrc], rfl, ?_, ?_⟩
    · simp [Pcre.exec_from_with_options, hrc]
      omega
    · intro m hm
      simp [Pcre.exec_from_with_options, hrc] at hm

/-- An engine oracle that reports result code 1 and echoes the offset
vector it was handed (so its length is preserved). -/
def engEcho : ExecEngine := fun c => (1, c.ovecInit)

theorem exec_from_with_options_contract_witness :
    (∀ c, ((engEcho c).2).length = c.ovecInit.length) ∧
    ((Pcre.exec_from_with_options engEcho pcre1 [97] 0 0).2
        = [pcre1.execCall [97] ((0 : Nat) : Int) 0] ∧
      (pcre1.execCall [97] ((0 : Nat) : Int) 0).ovecInit
        = List.replicate ((pcre1.capture_count_ + 1) * 3) 0 ∧
      ((Pcre.exec_from_with_options engEcho pcre1 [97] 0 0).1 = none
        ↔ (engEcho (pcre1.execCall [97] ((0 : Nat) : Int) 0)).1 < 0) ∧
      (∀ m,
        (Pcre.exec_from_with_options engEcho pcre1 [97] 0 0).1 = some m →
        m.subject = [97] ∧
        m.partial_ovector
          = ((engEcho (pcre1.execCall [97] ((0 : Nat) : Int) 0)).2).take
              ((pcre1.capture_count_ + 1) * 2) ∧
        m.partial_ovector.length = (pcre1.capture_count_ + 1) * 2 ∧
        m.string_count_ = (engEcho (pcre1.execCall [97] ((0 : Nat) : Int) 0)).1)) :=
  ⟨fun _ => rfl,
   exec_from_with_options_contract engEcho (fun _ => rfl) pcre1 [97] 0 0⟩

/-- C6: for every pattern and subject, `exec(subject)` and the first
`next()` of `matches(subject)` perform the very same engine call (same
handle, extra block, subject bytes and length, start offset 0, empty
option set, and an identical zero-filled offset vector), so with the
deterministic engine they return equal optional matches: equal capture
offset tables and equal `string_count`. -/
theorem exec_agrees_with_first_iterator_match (eng : ExecEngine)
    (p : Pcre) (subject : List Nat) :
    (Pcre.exec eng p subject).1
      = (MatchIterator.next eng (Pcre.matches p subject)).1 := by
  simp only [Pcre.exec, Pcre.exec_from, Pcre.exec_from_with_options,
    Pcre.execCall, Pcre.matches, Pcre.matches_with_options,
    MatchIterator.next, Nat.cast_zero]
  split_ifs <;> rfl

/-- Each `dropN` step with a positive remaining count just decrements. -/
theorem dropOwner_of_pos (m : Nat) (t : List Ev) (hm : 0 < m) :
    dropOwner { refcount := ((m + 1 : Nat) : Int), trace := t }
      = { refcount := ((m : Nat) : Int), trace := t } := by
  unfold dropOwner pcre_refcount
  have h1 : ((m + 1 : Nat) : Int) + (-1) = ((m : Nat) : Int) := by
    push_cast
    ring
  have h2 : ((m : Nat) : Int) ≠ 0 := by
    simp
    omega
  simp [h1, h2]

/-- The final `dropN` step releases the extra block then the handle. -/
theorem dropOwner_last (t : List Ev) :
    dropOwner { refcount := ((1 : Nat) : Int), trace := t }
      = { refcount := 0, trace := t ++ [Ev.freeStudy, Ev.freeCode] } := by
  unfold dropOwner pcre_refcount
  norm_num

/-- Effect of `k ≤ n` successive owner drops on a shared handle with
refcount `n`: the count falls to `n - k`, and the release events appear
exactly when the count reaches zero (the last of all `n` drops). -/
theorem dropN_spec (k : Nat) : ∀ (n : Nat) (t : List Ev), k ≤ n →
    dropN k { refcount := (n : Int), trace := t }
      = { refcount := (n : Int) - (k : Int),
          trace := t ++ (if k = n ∧ 0 < n
                         then [Ev.freeStudy, Ev.freeCode] else []) } := by
  induction k with
  | zero =>
    intro n t _
    have hcond : ¬(0 = n ∧ 0 < n) := by omega
    simp [dropN, hcond]
  | succ k ih =>
    intro n t hk
    cases n with
    | zero => omega
    | succ m =>
      rcases Nat.eq_zero_or_pos m with hm | hm
      · subst hm
        have hk0 : k = 0 := by omega
        subst hk0
        show dropN 0 (dropOwner { refcount := ((1 : Nat) : Int), trace := t }) = _
        rw [dropOwner_last]
        simp [dropN]
      · have hk' : k ≤ m := by omega
        show dropN k (dropOwner { refcount := ((m + 1 : Nat) : Int), trace := t }) = _
        rw [dropOwner_of_pos m t hm]
        rw [ih m t hk']
        by_cases hkm : k = m
        · subst hkm
          rw [if_pos (⟨rfl, hm⟩ : k = k ∧ 0 < k),
            if_pos (⟨rfl, Nat.succ_pos k⟩ : k + 1 = k + 1 ∧ 0 < k + 1)]
          simp only [NativeWorld.mk.injEq]
          exact ⟨by omega, trivial⟩
        · have c1 : ¬(k = m ∧ 0 < m) := fun h => hkm h.1
          have c2 : ¬(k + 1 = m + 1 ∧ 0 < m + 1) := by omega
          rw [if_neg c1, if_neg c2]
          simp only [NativeWorld.mk.injEq]
          exact ⟨by omega, trivial⟩

/-- C4: for a shared native handle held by `n ≥ 1` owners (the `Pcre`
plus any derived `MatchIterator`s and clones — all run the same
destructor body), every drop decrements the shared refcount; after any
`k < n` drops nothing has been released (the trace is empty and the
refcount is still positive, so the handle a surviving iterator uses for
`next()` is intact), and the `n`-th drop — the one bringing the count to
zero — releases the extra block and then the native handle, in that
order, exactly once. -/
theorem drop_frees_exactly_at_zero (n k : Nat) (h1 : 1 ≤ n) (hk : k ≤ n) :
    (∀ w : NativeWorld, (dropOwner w).refcount = w.refcount - 1) ∧
    (dropN k { refcount := (n : Int), trace := [] }).refcount
      = (n : Int) - (k : Int) ∧
    (k < n →
      (dropN k { refcount := (n : Int), trace := [] }).trace = [] ∧
      1 ≤ (dropN k { refcount := (n : Int), trace := [] }).refcount) ∧
    (k = n →
      (dropN k { refcount := (n : Int), trace := [] }).trace
        = [Ev.freeStudy, Ev.freeCode]) := by
  have hs := dropN_spec k n [] hk
  refine ⟨?_, ?_, ?_, ?_⟩
  · intro w
    by_cases hz : w.refcount + -1 = 0 <;>
      simp [dropOwner, pcre_refcount, hz] <;> omega
  · rw [hs]
  · intro hlt
    have hcond : ¬(k = n ∧ 0 < n) := by omega
    rw [hs]
    constructor
    · simp [hcond]
    · simp
      omega
  · intro heq
    have hcond : k = n ∧ 0 < n := by omega
    rw [hs]
    simp [hcond]

theorem drop_frees_exactly_at_zero_witness :
    (1 ≤ 2 ∧ 1 ≤ 2) ∧
    ((∀ w : NativeWorld, (dropOwner w).refcount = w.refcount - 1) ∧
      (dropN 1 { refcount := ((2 : Nat) : Int), trace := [] }).refcount
        = ((2 : Nat) : Int) - ((1 : Nat) : Int) ∧
      (1 < 2 →
        (dropN 1 { refcount := ((2 : Nat) : Int), trace := [] }).trace = [] ∧
        1 ≤ (dropN 1 { refcount := ((2 : Nat) : Int), trace := [] }).refcount) ∧
      (1 = 2 →
        (dropN 1 { refcount := ((2 : Nat) : Int), trace := [] }).trace
          = [Ev.freeStudy, Ev.freeCode])) :=
  ⟨⟨by decide, by decide⟩,
   drop_frees_exactly_at_zero 2 1 (by decide) (by decide)⟩

/-- Looking a name up after bumping every binding of `nm` with one more
group number: the binding of `nm` gains `n`, other names are untouched. -/
theorem tableFind_bump (m : List (String × List Nat)) (nm : String)
    (n : Nat) (name : String) :
    tableFind (m.map fun kv => if kv.1 = nm then (kv.1, kv.2 ++ [n]) else kv) name
      = if name = nm then (tableFind m nm).map (fun l => l ++ [n])
        else tableFind m name := by
  induction m with
  | nil => by_cases hn : name = nm <;> simp [tableFind, hn]
  | cons kv rest ih =>
    by_cases h1 : kv.1 = nm
    · by_cases h2 : kv.1 = name
      · have hnm : name = nm := h2.symm.trans h1
        simp [tableFind, h1, h2, hnm]
      · have hnm : ¬name = nm := fun h => h2 (h1.trans h.symm)
        have hnm2 : ¬nm = name := fun h => hnm h.symm
        simp [tableFind, h1, h2, hnm, hnm2, ih]
    · by_cases h2 : kv.1 = name
      · have hnm : ¬name = nm := fun h => h1 (h2.trans h)
        simp [tableFind, h1, h2, hnm]
      · simp [tableFind, h1, h2, ih]

/-- Looking a name up in a table extended on the right with one binding:
the existing binding wins, otherwise the new one is found. -/
theorem tableFind_append_single (m : List (String × List Nat))
    (nm name : String) (l : List Nat) :
    tableFind (m ++ [(nm, l)]) name
      = match tableFind m name with
        | some v => some v
        | none => if nm = name then some l else none := by
  induction m with
  | nil => simp [tableFind]
  | cons kv rest ih =>
    by_cases h2 : kv.1 = name <;> simp [tableFind, h2, ih]

/-- Effect of one `Pcre::name_table` loop iteration on a lookup. -/
theorem tableFind_tableInsert (m : List (String × List Nat)) (nm : String)
    (n : Nat) (name : String) :
    tableFind (tableInsert m nm n) name
      = if name = nm then
          (match tableFind m nm with
           | some l => some (l ++ [n])
           | none => some [n])
        else tableFind m name := by
  unfold tableInsert
  by_cases hf : (tableFind m nm).isSome
  · rw [if_pos hf, tableFind_bump]
    by_cases hn : name = nm
    · rcases ho : tableFind m nm with _ | l
      · rw [ho] at hf
        simp at hf
      · simp [hn, ho]
    · simp [hn]
  · rw [if_neg hf, tableFind_append_single]
    have ho : tableFind m nm = none := by
      rcases ho : tableFind m nm with _ | l
      · rfl
      · rw [ho] at hf
        simp at hf
    by_cases hn : name = nm
    · subst hn
      simp [ho]
    · have hn2 : ¬nm = name := fun h => hn h.symm
      rcases ho2 : tableFind m name with _ | v <;> simp [hn, hn2, ho2]

/-- Folding the remaining name-table entries onto an accumulator: the
numbers of all entries for `name` are appended, in table order, to
whatever binding `name` already has. -/
theorem name_table_loop (entries : List NameEntry) (name : String) :
    ∀ acc : List (String × List Nat),
    tableFind (entries.foldl (fun a e => tableInsert a e.name e.number) acc) name
      = match tableFind acc name with
        | some l => some (l ++ numbersFor entries name)
        | none =>
            if numbersFor entries name = [] then none
            else some (numbersFor entries name) := by
  induction entries with
  | nil =>
    intro acc
    rcases h : tableFind acc name with _ | l <;> simp [numbersFor, h]
  | cons e es ih =>
    intro acc
    rw [List.foldl_cons, ih (tableInsert acc e.name e.number),
      tableFind_tableInsert]
    by_cases hn : name = e.name
    · have hfil : numbersFor (e :: es) name
          = e.number :: numbersFor es name := by
        simp [numbersFor, List.filter_cons, hn.symm]
      rw [hfil, ← hn]
      rcases h : tableFind acc name with _ | l <;> simp [h]
    · have hfil : numbersFor (e :: es) name = numbersFor es name := by
        have : ¬e.name = name := fun h => hn h.symm
        simp [numbersFor, List.filter_cons, this]
      rw [hfil, if_neg hn]

/-- C8: `name_table()` accumulates, never overwrites: for every engine
name table (which may list one name several times under the
duplicate-names compile option) and every name, the mapping gives the
list of all group numbers whose entries carry that name, in the order
they appear in the engine's table; in particular a table with two
entries named `"x"` (numbers 1 and 2) yields exactly `[1, 2]` under key
`"x"`. -/
theorem name_table_accumulates (entries : List NameEntry) (name : String) :
    (tableFind (Pcre.name_table entries) name
      = if numbersFor entries name = [] then none
        else some (numbersFor entries name)) ∧
    tableFind
        (Pcre.name_table
          [{ b0 := 0, b1 := 1, name := "x" }, { b0 := 0, b1 := 2, name := "x" }])
        "x"
      = some [1, 2] := by
  constructor
  · have h := name_table_loop entries name []
    rw [Pcre.name_table, h]
    rfl
  · rfl
